import Mathlib

/-!
# Verification of the retrieval engine (chunker, vector codec, corpus store, ranker)

Shallow embedding of the repository's core:
* `chunk_text`         — `app.py`, `chunk_text(text, chunk_size=500, overlap=50)`
* `encodeF32/decodeF32`— `database.py` line 66 (`.astype(np.float32).tobytes()`) and
                         line 103 (`np.frombuffer(..., dtype=np.float32)`), modelled on
                         32-bit words (IEEE-754 bit patterns) and byte lists
* `DB` operations      — `database.py` (`add_document`, `add_chunk`, `delete_document`,
                         `search_similar`, `get_all_documents`)

Modelling notes, each justified against the source:
* Python `str.split()` is modelled character-exactly by `wordsAux` on `List Char`
  (split on whitespace runs, dropping empty tokens); `' '.join` by `joinSpace`.
* sqlite runs with foreign-key enforcement OFF unless a connection executes
  `PRAGMA foreign_keys = ON`.  `database.py` never does, so the declared
  `FOREIGN KEY ... ON DELETE CASCADE` is *not* enforced at runtime: `add_chunk`
  inserts rows with dangling `doc_id`s and `DELETE FROM documents` does not cascade.
  The model reproduces this actual behaviour.
* Machine floats are embedded two ways: the codec layer works on raw 32/64-bit
  patterns (`Nat` below `2^32`/`2^64`), while the similarity layer works on exact
  values.  A cosine score `dot / (‖q‖·‖v‖)` is represented exactly as the pair
  `⟨num, denSq⟩` standing for `num / √denSq` with `denSq > 0`; `scoreLe` compares
  these representations exactly as the real values would compare.
* Python's `list.sort(key=..., reverse=True)` is a stable descending sort; any two
  stable sorts under the same total preorder agree, so it is modelled by Mathlib's
  stable `List.insertionSort` with the descending comparator.
-/

/-! ## Python-level helpers -/

/-- Python list slicing `l[:k]`: nonnegative `k` keeps the first `k` elements,
negative `k` drops the last `-k` elements. -/
def pyTakeSlice (k : Int) (l : List α) : List α :=
  if k < 0 then l.take (l.length - (-k).toNat) else l.take k.toNat

/-- Helper for `str.split()`: accumulate the current (reversed) word while walking
the character list; whitespace ends a word, empty words are dropped. -/
def wordsAux : List Char → List Char → List (List Char)
  | [], cur => if cur = [] then [] else [cur.reverse]
  | c :: cs, cur =>
    if c.isWhitespace then
      if cur = [] then wordsAux cs [] else cur.reverse :: wordsAux cs []
    else wordsAux cs (c :: cur)

/-- Python `text.split()`: split on whitespace runs, dropping empty tokens. -/
def pyWords (text : String) : List (List Char) := wordsAux text.toList []

/-- Python `' '.join(tokens)`. -/
def joinSpace : List (List Char) → List Char
  | [] => []
  | [t] => t
  | t :: ts => t ++ ' ' :: joinSpace ts

/-- Python slice `l[i:stop]` for a nonnegative start index `i` and arbitrary
integer `stop` (negative `stop` counts from the end, then both are clamped). -/
def pySliceFrom (l : List (List Char)) (i : Nat) (stop : Int) : List (List Char) :=
  let stopIdx : Nat := if stop < 0 then ((l.length : Int) + stop).toNat
                       else min stop.toNat l.length
  (l.take stopIdx).drop i

/-- Python truthiness of `chunk.strip()`: true iff the string contains a
non-whitespace character. -/
def stripTruthy (ch : List Char) : Bool := ch.any (fun c => !c.isWhitespace)

/-! ## Chunker (`app.py`, `chunk_text`) -/

/-- The one runtime error the chunker can raise: `range(0, n, 0)` raises
`ValueError: range() arg 3 must not be zero` when `chunk_size == overlap`. -/
inductive ChunkErr where
  | rangeStepZero
deriving DecidableEq

/-- `app.py` `chunk_text(text, chunk_size, overlap)` (source defaults 500/50):
split on whitespace, then for `i in range(0, len(words), chunk_size - overlap)`
join `words[i:i+chunk_size]` with single spaces, appending only chunks whose
`strip()` is truthy.  A zero step raises; a negative step makes `range` empty,
silently yielding `[]`.  No parameter validation is performed in the source. -/
def chunk_text (text : String) (chunk_size overlap : Int) :
    Except ChunkErr (List (List Char)) :=
  let words := pyWords text
  if chunk_size - overlap = 0 then .error .rangeStepZero
  else if chunk_size - overlap < 0 then .ok []
  else
    let s := (chunk_size - overlap).toNat
    let idxs := (List.range ((words.length + s - 1) / s)).map (fun j => j * s)
    .ok ((idxs.map (fun i => joinSpace (pySliceFrom words i ((i : Int) + chunk_size)))).filter
      stripTruthy)

/-! ## Vector codec (`database.py` lines 66 and 103) -/

/-- The decode failure: `np.frombuffer` raises when the byte length is not a
multiple of the 4-byte item size. -/
inductive CodecErr where
  | notMultipleOf4
deriving DecidableEq

/-- `embedding.astype(np.float32).tobytes()` on a float32 array: each 32-bit word
becomes 4 little-endian bytes, concatenated with no header. -/
def encodeF32 (v : List Nat) : List Nat :=
  v.flatMap (fun w => [w % 256, w / 256 % 256, w / 256 ^ 2 % 256, w / 256 ^ 3 % 256])

/-- Reassemble 32-bit words from groups of 4 little-endian bytes. -/
def decodeF32Core : List Nat → List Nat
  | b0 :: b1 :: b2 :: b3 :: rest =>
      (b0 + 256 * b1 + 256 ^ 2 * b2 + 256 ^ 3 * b3) :: decodeF32Core rest
  | _ => []

/-- `np.frombuffer(embedding_bytes, dtype=np.float32)`: fails unless the byte
length is a multiple of 4, and recovers the dimension as `byte_length / 4`. -/
def decodeF32 (bs : List Nat) : Except CodecErr (List Nat) :=
  if bs.length % 4 = 0 then .ok (decodeF32Core bs) else .error .notMultipleOf4

/-! ## Similarity scores

`search_similar` computes `np.dot(q, v) / (||q|| * ||v||)` when both norms are
positive and `0` otherwise.  The value `num / sqrt denSq` is represented exactly
by the pair `⟨num, denSq⟩` with `denSq > 0` (the zero score is `⟨0, 1⟩`), and
`scoreLe` decides `num₁ / √denSq₁ ≤ num₂ / √denSq₂` by exact rational
arithmetic (sign comparison, then comparison of squares). -/

structure Score where
  num : ℚ
  denSq : ℚ
  pos : 0 < denSq

instance : DecidableEq Score := fun a b =>
  if h : a.num = b.num ∧ a.denSq = b.denSq then
    isTrue (by cases a; cases b; simp_all)
  else
    isFalse (by intro he; cases he; exact h ⟨rfl, rfl⟩)

/-- Exact comparison of represented values: `a.num / √a.denSq ≤ b.num / √b.denSq`. -/
def scoreLe (a b : Score) : Bool :=
  if a.num < 0 then
    if b.num < 0 then decide (b.num * b.num * a.denSq ≤ a.num * a.num * b.denSq)
    else true
  else
    if b.num < 0 then false
    else decide (a.num * a.num * b.denSq ≤ b.num * b.num * a.denSq)

/-- `scoreLe` as a relation, the order underlying the ranking. -/
def scoreLeP (a b : Score) : Prop := scoreLe a b = true

instance : DecidableRel scoreLeP := fun a b =>
  inferInstanceAs (Decidable (scoreLe a b = true))

instance : IsTotal Score scoreLeP :=
  ⟨fun a b => by
    unfold scoreLeP scoreLe
    by_cases ha : a.num < 0 <;> by_cases hb : b.num < 0 <;> simp [ha, hb, le_total]⟩

instance : IsTrans Score scoreLeP :=
  ⟨fun a b c h1 h2 => by
    have hpa := a.pos
    have hpb := b.pos
    have hpc := c.pos
    unfold scoreLeP scoreLe at h1 h2 ⊢
    by_cases ha : a.num < 0 <;> by_cases hb : b.num < 0 <;> by_cases hc : c.num < 0 <;>
      simp [ha, hb, hc] at h1 h2 ⊢
    · -- all negative: from b²·pa ≤ a²·pb and c²·pb ≤ b²·pc conclude c²·pa ≤ a²·pc
      have h3 : b.num * b.num * a.denSq * c.denSq ≤ a.num * a.num * b.denSq * c.denSq :=
        mul_le_mul_of_nonneg_right h1 hpc.le
      have h4 : c.num * c.num * b.denSq * a.denSq ≤ b.num * b.num * c.denSq * a.denSq :=
        mul_le_mul_of_nonneg_right h2 hpa.le
      have h5 : b.denSq * (c.num * c.num * a.denSq) ≤ b.denSq * (a.num * a.num * c.denSq) := by
        nlinarith
      exact le_of_mul_le_mul_left h5 hpb
    · -- all nonnegative
      have h3 : a.num * a.num * b.denSq * c.denSq ≤ b.num * b.num * a.denSq * c.denSq :=
        mul_le_mul_of_nonneg_right h1 hpc.le
      have h4 : b.num * b.num * c.denSq * a.denSq ≤ c.num * c.num * b.denSq * a.denSq :=
        mul_le_mul_of_nonneg_right h2 hpa.le
      have h5 : b.denSq * (a.num * a.num * c.denSq) ≤ b.denSq * (c.num * c.num * a.denSq) := by
        nlinarith
      exact le_of_mul_le_mul_left h5 hpb⟩

/-- Two scores representing the same real value (a tie in the ranking). -/
def scoreEqv (a b : Score) : Bool := scoreLe a b && scoreLe b a

/-! ## Corpus store (`database.py`)

State of the sqlite database.  `AUTOINCREMENT` ids are modelled by counters that
are never reused; `CURRENT_TIMESTAMP` by a logical clock that ticks on every
write.  Embeddings are stored by their decoded float32 values (exact, as `ℚ`);
the byte layer is `encodeF32/decodeF32` above. -/

structure Doc where
  id : Nat
  name : String
  content : String
  uploadedAt : Nat
  chunkCount : Nat
deriving DecidableEq

structure ChunkRow where
  id : Nat
  docId : Nat
  text : String
  embedding : List ℚ
deriving DecidableEq

structure DB where
  documents : List Doc
  chunks : List ChunkRow
  nextDocId : Nat
  nextChunkId : Nat
  clock : Nat
deriving DecidableEq

def emptyDB : DB := ⟨[], [], 1, 1, 0⟩

/-- `add_document(name, content)`: INSERT a document with `chunk_count` 0,
returning `lastrowid`. -/
def add_document (name content : String) (db : DB) : DB × Nat :=
  (⟨db.documents ++ [⟨db.nextDocId, name, content, db.clock, 0⟩], db.chunks,
    db.nextDocId + 1, db.nextChunkId, db.clock + 1⟩, db.nextDocId)

/-- `add_chunk(doc_id, text, embedding)`: INSERT the chunk row, then
`UPDATE documents SET chunk_count = chunk_count + 1 WHERE id = doc_id`.
No existence check is made, and sqlite's foreign keys are off (no
`PRAGMA foreign_keys = ON` anywhere in the source), so the INSERT succeeds even
for a `doc_id` with no document, and the UPDATE then matches no row. -/
def add_chunk (docId : Nat) (text : String) (embedding : List ℚ) (db : DB) : DB :=
  ⟨db.documents.map (fun d => if d.id = docId then
      ⟨d.id, d.name, d.content, d.uploadedAt, d.chunkCount + 1⟩ else d),
    db.chunks ++ [⟨db.nextChunkId, docId, text, embedding⟩],
    db.nextDocId, db.nextChunkId + 1, db.clock + 1⟩

/-- `delete_document(doc_id)`: `DELETE FROM documents WHERE id = ?`.  The source
comments that chunks are removed by the declared `ON DELETE CASCADE`, but with
foreign keys off sqlite performs no cascade: only the document row is deleted
and the chunk rows stay behind. -/
def delete_document (docId : Nat) (db : DB) : DB :=
  ⟨db.documents.filter (fun d => d.id ≠ docId), db.chunks,
    db.nextDocId, db.nextChunkId, db.clock + 1⟩

/-- The `SELECT c.text, d.name, c.embedding FROM chunks c JOIN documents d ON
c.doc_id = d.id` scan of `search_similar`: every chunk row paired with each
matching document row (chunk-major order). -/
def iterateChunks (db : DB) : List (ChunkRow × Doc) :=
  db.chunks.flatMap (fun c =>
    (db.documents.filter (fun d => d.id = c.docId)).map (fun d => (c, d)))

/-! ## Similarity ranker (`database.py`, `search_similar`) -/

/-- The runtime error of the scoring loop: `np.dot` raises on mismatched
1-D shapes. -/
inductive PyErr where
  | dimensionMismatch
deriving DecidableEq

def dotQ (a b : List ℚ) : ℚ := (List.zipWith (fun x y => x * y) a b).sum

/-- Squared Euclidean norm; `np.linalg.norm(v) > 0` iff `normSq v > 0`. -/
def normSq (a : List ℚ) : ℚ := dotQ a a

/-- One iteration of the scoring loop: if both norms are positive, compute
`np.dot(q, v) / (||q|| * ||v||)` — raising if the shapes differ — otherwise
score 0.  The cosine value `dot / √(‖q‖²·‖v‖²)` is represented exactly. -/
def cosineScoreE (q v : List ℚ) : Except PyErr Score :=
  if h : 0 < normSq v ∧ 0 < normSq q then
    if v.length = q.length then
      .ok ⟨dotQ q v, normSq q * normSq v, mul_pos h.2 h.1⟩
    else .error .dimensionMismatch
  else .ok ⟨0, 1, one_pos⟩

/-- The Python `for` loop over the fetched rows: first raised error aborts. -/
def mapExcept (f : α → Except ε β) : List α → Except ε (List β)
  | [] => .ok []
  | a :: l => do
    let b ← f a
    let bs ← mapExcept f l
    pure (b :: bs)

/-- A ranked result row `(text, doc_name, similarity)`. -/
abbrev Entry := String × String × Score

/-- Lines 94–112: build `results` in scan order. -/
def scanScores (q : List ℚ) (db : DB) : Except PyErr (List Entry) :=
  mapExcept (fun cd => (cosineScoreE q cd.1.embedding).map
    (fun s => (cd.1.text, cd.2.name, s))) (iterateChunks db)

/-- `results.sort(key=lambda x: x[2], reverse=True)` orders `a` before `b`
exactly when `b`'s score is at most `a`'s (descending; ties keep scan order
because the sort is stable). -/
def rankR (a b : Entry) : Prop := scoreLeP b.2.2 a.2.2

instance : DecidableRel rankR := fun a b =>
  inferInstanceAs (Decidable (scoreLe b.2.2 a.2.2 = true))

instance : IsTotal Entry rankR :=
  ⟨fun a b => @IsTotal.total Score scoreLeP _ b.2.2 a.2.2⟩

instance : IsTrans Entry rankR :=
  ⟨fun a b c h1 h2 => @IsTrans.trans Score scoreLeP _ c.2.2 b.2.2 a.2.2 h2 h1⟩

/-- `search_similar(query_embedding, top_k)` (source default `top_k=5`): score
every joined chunk, sort descending by score with Python's stable sort
(modelled by the stable `insertionSort`), and return `results[:top_k]`. -/
def search_similar (q : List ℚ) (top_k : Int) (db : DB) : Except PyErr (List Entry) :=
  (scanScores q db).map (fun results =>
    pyTakeSlice top_k (List.insertionSort rankR results))

/-! ## Document listing (`database.py`, `get_all_documents`) -/

/-- The `size` field: `f"{row[4] / 1024:.1f} KB"` where `row[4]` is sqlite's
`length(content)` — the number of characters of the stored text.  In Python,
`n / 1024` is exactly representable in binary floating point (denominator a
power of two, `n < 2^53`), and `.1f` rounds that exact value half-to-even to
one decimal: the printed tenths count is round-half-even of `10·n/1024 =
5·n/512`, computed here exactly on integers. -/
def fmtKB (n : Nat) : String :=
  let q := 5 * n / 512
  let r := 5 * n % 512
  let t := if 256 < r ∨ (r = 256 ∧ q % 2 = 1) then q + 1 else q
  toString (t / 10) ++ "." ++ toString (t % 10) ++ " KB"

/-- A row of the `/api/documents` listing: `{id, name, chunks, uploadedAt, size}`. -/
structure DocEntry where
  id : Nat
  name : String
  chunks : Nat
  uploadedAt : Nat
  size : String
deriving DecidableEq

/-- Descending order on upload time, for `ORDER BY uploaded_at DESC`. -/
def uploadedDesc (a b : Doc) : Prop := b.uploadedAt ≤ a.uploadedAt

instance : DecidableRel uploadedDesc := fun a b =>
  inferInstanceAs (Decidable (b.uploadedAt ≤ a.uploadedAt))

/-- `get_all_documents()`: `SELECT id, name, chunk_count, uploaded_at,
length(content) as size FROM documents ORDER BY uploaded_at DESC`, each row
formatted as `{id, name, chunks, uploadedAt, size: f"{size/1024:.1f} KB"}`. -/
def get_all_documents (db : DB) : List DocEntry :=
  (List.insertionSort uploadedDesc db.documents).map (fun d =>
    ⟨d.id, d.name, d.chunkCount, d.uploadedAt, fmtKB d.content.length⟩)

/-! ## float64 → float32 cast (`astype(np.float32)` on float64 input)

`add_chunk` always executes `embedding.astype(np.float32)`.  On float64 input
this is IEEE-754 round-to-nearest-even conversion; on float32 input it is the
identity.  `f64ToF32` implements the conversion on raw 64-bit patterns. -/

/-- IEEE-754 binary64 → binary32 conversion on bit patterns, rounding to
nearest with ties to even, overflowing to infinity and flushing tiny values
through the subnormal range. -/
def f64ToF32 (w : Nat) : Nat :=
  let s := w / 2 ^ 63 % 2
  let e := w / 2 ^ 52 % 2 ^ 11
  let m := w % 2 ^ 52
  if e = 2047 then
    -- infinity and NaN (NaN keeps its top mantissa bits, forced quiet-nonzero)
    s * 2 ^ 31 + 255 * 2 ^ 23 + (if m = 0 then 0 else if m / 2 ^ 29 = 0 then 2 ^ 22 else m / 2 ^ 29)
  else if 1151 ≤ e then
    -- unbiased exponent ≥ 128: beyond the float32 range, round to infinity
    s * 2 ^ 31 + 255 * 2 ^ 23
  else
    let sig := if e = 0 then m else 2 ^ 52 + m
    let extra := if e = 0 then 896 else if e < 897 then 897 - e else 0
    let k := 29 + extra
    let q := sig / 2 ^ k
    let r := sig % 2 ^ k
    let half := 2 ^ (k - 1)
    let rq := if half < r ∨ (r = half ∧ q % 2 = 1) then q + 1 else q
    if e < 897 then
      -- subnormal range of float32 (a carry into 2^23 lands on exponent 1)
      s * 2 ^ 31 + rq
    else
      s * 2 ^ 31 + (e - 896) * 2 ^ 23 + (rq - 2 ^ 23)

/-- Exact rational value of a finite float64 bit pattern (NaN/infinity mapped
to 0; they do not occur in the theorems below). -/
def f64ValQ (w : Nat) : ℚ :=
  let s : Nat := w / 2 ^ 63 % 2
  let e : Nat := w / 2 ^ 52 % 2 ^ 11
  let m : Nat := w % 2 ^ 52
  let sign : ℚ := if s = 1 then -1 else 1
  if e = 2047 then 0
  else if e = 0 then sign * (m : ℚ) / 2 ^ 1074
  else sign * ((2 ^ 52 + m : Nat) : ℚ) * 2 ^ e / 2 ^ 1075

/-- Exact rational value of a finite float32 bit pattern. -/
def f32ValQ (w : Nat) : ℚ :=
  let s : Nat := w / 2 ^ 31 % 2
  let e : Nat := w / 2 ^ 23 % 2 ^ 8
  let m : Nat := w % 2 ^ 23
  let sign : ℚ := if s = 1 then -1 else 1
  if e = 255 then 0
  else if e = 0 then sign * (m : ℚ) / 2 ^ 149
  else sign * ((2 ^ 23 + m : Nat) : ℚ) * 2 ^ e / 2 ^ 150

/-! # Theorems -/

/-! ## Small computation rules (used to evaluate concrete states) -/

theorem mapExcept_nil (f : α → Except ε β) : mapExcept f [] = .ok [] := rfl

theorem mapExcept_cons (f : α → Except ε β) (a : α) (l : List α) :
    mapExcept f (a :: l) =
      (f a) >>= (fun b => mapExcept f l >>= (fun bs => .ok (b :: bs))) := rfl

theorem exc_bind_ok (b : β) (f : β → Except ε γ) : ((.ok b : Except ε β) >>= f) = f b := rfl

theorem exc_map_ok (b : β) (f : β → γ) : Except.map f (.ok b : Except ε β) = .ok (f b) := rfl

/-! ## Vector codec: the round-trip law (C6) -/

theorem encodeF32_cons (x : Nat) (v : List Nat) :
    encodeF32 (x :: v) =
      x % 256 :: x / 256 % 256 :: x / 256 ^ 2 % 256 :: x / 256 ^ 3 % 256 :: encodeF32 v :=
  rfl

theorem decodeF32Core_encodeF32 (v : List Nat) (hv : ∀ x ∈ v, x < 2 ^ 32) :
    decodeF32Core (encodeF32 v) = v := by
  induction v with
  | nil => rfl
  | cons x v ih =>
    have hx : x < 2 ^ 32 := hv x (List.mem_cons_self x v)
    have hrest : ∀ y ∈ v, y < 2 ^ 32 := fun y hy => hv y (List.mem_cons_of_mem x hy)
    have hword : x % 256 + 256 * (x / 256 % 256) + 256 ^ 2 * (x / 256 ^ 2 % 256)
        + 256 ^ 3 * (x / 256 ^ 3 % 256) = x := by
      omega
    rw [encodeF32_cons, decodeF32Core, ih hrest, hword]

theorem length_encodeF32 (v : List Nat) : (encodeF32 v).length = 4 * v.length := by
  induction v with
  | nil => rfl
  | cons x v ih => rw [encodeF32_cons]; simp [ih]; omega

theorem decodeF32_encodeF32 (v : List Nat) (hv : ∀ x ∈ v, x < 2 ^ 32) :
    decodeF32 (encodeF32 v) = .ok v := by
  simp [decodeF32, length_encodeF32, decodeF32Core_encodeF32 v hv, Nat.mul_mod_right]

/-- CLAIM C6: for every float32 vector (list of 32-bit words), decoding the
encoded bytes returns exactly the vector; the encoding is a headerless
little-endian array of `4*D` bytes, and decode recovers the dimension as
`byte_length / 4`. -/
theorem codec_roundtrip (v : List Nat) (hv : ∀ x ∈ v, x < 2 ^ 32) :
    decodeF32 (encodeF32 v) = .ok v
    ∧ (encodeF32 v).length = 4 * v.length
    ∧ (decodeF32Core (encodeF32 v)).length = (encodeF32 v).length / 4 := by
  have hlen := length_encodeF32 v
  have hcore := decodeF32Core_encodeF32 v hv
  refine ⟨decodeF32_encodeF32 v hv, hlen, ?_⟩
  rw [hcore, hlen]; omega

/-- Witness for C6 at a concrete vector (the float32 bit patterns of 0.1, 0.0
and the all-ones word). -/
theorem codec_roundtrip_witness :
    decodeF32 (encodeF32 [1036831949, 0, 4294967295]) = .ok [1036831949, 0, 4294967295]
    ∧ (encodeF32 [1036831949, 0, 4294967295]).length = 4 * 3
    ∧ (decodeF32Core (encodeF32 [1036831949, 0, 4294967295])).length
        = (encodeF32 [1036831949, 0, 4294967295]).length / 4 :=
  codec_roundtrip [1036831949, 0, 4294967295] (by decide)

/-! ## Chunker: missing validation (C2) -/

/-- CLAIM C2, counterexample: with `window < overlap` (500 < 600) the chunker
silently returns the empty list, and with `overlap < 0` it silently produces
chunks (skipping words: `"b"` is lost below) — in neither case does it fail up
front with an InvalidConfiguration error as the claim states. -/
theorem chunker_no_validation_counterexample :
    chunk_text "a b c" 500 600 = .ok []
    ∧ chunk_text "a b c" 1 (-1) = .ok [['a'], ['c']] := by
  exact ⟨rfl, rfl⟩

/-- CLAIM C2 (amended): `chunk_text` performs no parameter validation.
`window = overlap` raises the generic `ValueError` of `range` (step zero);
`window < overlap` silently returns the empty list; any `overlap < window`
(including negative overlap) silently produces output. -/
theorem chunker_no_validation (text : String) (w o : Int) :
    (w = o → chunk_text text w o = .error .rangeStepZero)
    ∧ (w < o → chunk_text text w o = .ok [])
    ∧ (o < w → ∃ cs, chunk_text text w o = .ok cs) := by
  refine ⟨fun h => ?_, fun h => ?_, fun h => ?_⟩
  · unfold chunk_text
    rw [if_pos (by omega)]
  · unfold chunk_text
    rw [if_neg (by omega), if_pos (by omega)]
  · unfold chunk_text
    rw [if_neg (by omega), if_neg (by omega)]
    exact ⟨_, rfl⟩

/-- Witness for the amended C2 at concrete inputs. -/
theorem chunker_no_validation_witness :
    chunk_text "x y" 2 2 = .error .rangeStepZero :=
  (chunker_no_validation "x y" 2 2).1 rfl

/-! ## Referential integrity (C3, C4, C5) -/

/-- CLAIM C3, evaluation at the failing input: `add_chunk` on a `doc_id` (99)
that references no document does not fail with NotFound — sqlite's foreign keys
are off, so it persists an orphaned chunk row and the `chunk_count` UPDATE
matches nothing.  When the document does exist, exactly one chunk is persisted
and its `chunk_count` becomes 1. -/
theorem add_chunk_missing_doc_behavior :
    (add_chunk 99 "t" [(1 : ℚ)] emptyDB).documents = []
    ∧ (add_chunk 99 "t" [(1 : ℚ)] emptyDB).chunks.map ChunkRow.docId = [99]
    ∧ (add_chunk 1 "u" [(1 : ℚ)] (add_document "d" "x" emptyDB).1).chunks.map
        ChunkRow.docId = [1]
    ∧ (add_chunk 1 "u" [(1 : ℚ)] (add_document "d" "x" emptyDB).1).documents.map
        Doc.chunkCount = [1] := by
  exact ⟨rfl, rfl, rfl, rfl⟩

/-- CLAIM C4, evaluation at the failing input: after
`add_document; add_chunk; delete_document` the document table is empty but the
chunk row with `doc_id = 1` is still stored — an orphaned chunk, because
sqlite never executes the declared cascade with foreign keys off. -/
theorem delete_document_leaves_orphan :
    (delete_document 1 (add_chunk 1 "t" [(1 : ℚ)]
        (add_document "d" "x" emptyDB).1)).documents = []
    ∧ (delete_document 1 (add_chunk 1 "t" [(1 : ℚ)]
        (add_document "d" "x" emptyDB).1)).chunks.map ChunkRow.docId = [1] := by
  exact ⟨rfl, rfl⟩

/-- CLAIM C5: for every database state and any deleted `doc_id`, the
SELECT-JOIN scan used by the ranker yields no entry owned by the deleted
document: the join with `documents` filters orphaned chunk rows out. -/
theorem scan_after_delete_no_owned_entry (db : DB) (docId : Nat) :
    (iterateChunks (delete_document docId db)).all
      (fun cd => cd.1.docId != docId && cd.2.id != docId) = true := by
  rw [List.all_eq_true]
  intro cd hcd
  simp only [iterateChunks, delete_document, List.mem_flatMap, List.mem_map,
    List.mem_filter, decide_eq_true_eq] at hcd
  obtain ⟨c, hc, d, ⟨⟨hdmem, hdne⟩, hdid⟩, rfl⟩ := hcd
  simp only [Bool.and_eq_true, bne_iff_ne, ne_eq]
  exact ⟨fun h => hdne (hdid.trans h), fun h => hdne h⟩

/-! ## Top-k selection (C1) -/

theorem length_pyTakeSlice (k : Int) (l : List α) :
    (pyTakeSlice k l).length =
      if 0 ≤ k then min k.toNat l.length else l.length - (-k).toNat := by
  unfold pyTakeSlice
  rcases lt_or_le k 0 with hk | hk
  · rw [if_pos hk, if_neg (by omega), List.length_take]
    omega
  · rw [if_neg (by omega), if_pos hk, List.length_take]

theorem mapExcept_ok_length (f : α → Except ε β) (l : List α) (rs : List β)
    (h : mapExcept f l = .ok rs) : rs.length = l.length := by
  induction l generalizing rs with
  | nil =>
    unfold mapExcept at h
    cases h
    rfl
  | cons a l ih =>
    unfold mapExcept at h
    cases hfa : f a with
    | error e => rw [hfa] at h; cases h
    | ok b =>
      rw [hfa] at h
      cases hrest : mapExcept f l with
      | error e => rw [hrest] at h; cases h
      | ok bs =>
        rw [hrest] at h
        cases h
        simp [ih bs hrest]

/-- CLAIM C1 (amended): when the scoring scan succeeds, `search_similar`
returns `results[:top_k]` of the ranked list; for `top_k ≥ 0` its length is
`min(top_k, number of scanned chunks)`, but for `top_k < 0` Python slicing
keeps all but the last `-top_k` ranked results, so among `top_k ≤ 0` only
`top_k = 0` is guaranteed to return the empty list. -/
theorem search_topk_length (db : DB) (q : List ℚ) (k : Int) (rs : List Entry)
    (h : scanScores q db = .ok rs) :
    search_similar q k db = .ok (pyTakeSlice k (List.insertionSort rankR rs))
    ∧ rs.length = (iterateChunks db).length
    ∧ (0 ≤ k →
        (pyTakeSlice k (List.insertionSort rankR rs)).length = min k.toNat rs.length)
    ∧ (k < 0 →
        (pyTakeSlice k (List.insertionSort rankR rs)).length = rs.length - (-k).toNat) := by
  have hsort : (List.insertionSort rankR rs).length = rs.length :=
    (List.perm_insertionSort rankR rs).length_eq
  refine ⟨?_, mapExcept_ok_length _ _ _ h, fun hk => ?_, fun hk => ?_⟩
  · unfold search_similar
    rw [h]
    rfl
  · rw [length_pyTakeSlice, if_pos hk, hsort]
  · rw [length_pyTakeSlice, if_neg (by omega), hsort]

/-- Evaluation of the scoring scan on a concrete two-chunk store. -/
theorem scanScores_two_chunks :
    scanScores [(1 : ℚ)] (add_chunk 1 "t2" [(1 : ℚ)] (add_chunk 1 "t1" [(1 : ℚ)]
        (add_document "d" "x" emptyDB).1)) =
      .ok [("t1", "d", ⟨1, 1, one_pos⟩), ("t2", "d", ⟨1, 1, one_pos⟩)] := by
  norm_num [scanScores, mapExcept_cons, mapExcept_nil, exc_bind_ok, exc_map_ok,
    iterateChunks, add_chunk, add_document, emptyDB, cosineScoreE, normSq, dotQ,
    Score.mk.injEq]

/-- CLAIM C1, counterexample: with two stored chunks and `top_k = -1` the
ranking returns one result (Python's `results[:-1]`), not the empty sequence
the claim promises for every `top_k <= 0`. -/
theorem search_topk_negative_counterexample :
    (search_similar [(1 : ℚ)] (-1)
        (add_chunk 1 "t2" [(1 : ℚ)] (add_chunk 1 "t1" [(1 : ℚ)]
          (add_document "d" "x" emptyDB).1))).map List.length = .ok 1 := by
  rw [show (search_similar [(1 : ℚ)] (-1)
        (add_chunk 1 "t2" [(1 : ℚ)] (add_chunk 1 "t1" [(1 : ℚ)]
          (add_document "d" "x" emptyDB).1)))
      = .ok (pyTakeSlice (-1) (List.insertionSort rankR
          [("t1", "d", ⟨1, 1, one_pos⟩), ("t2", "d", ⟨1, 1, one_pos⟩)])) from by
    unfold search_similar
    rw [scanScores_two_chunks]
    rfl]
  rw [exc_map_ok]
  have hlen : (List.insertionSort rankR
      [("t1", "d", (⟨1, 1, one_pos⟩ : Score)), ("t2", "d", (⟨1, 1, one_pos⟩ : Score))]).length
      = 2 :=
    (List.perm_insertionSort rankR _).length_eq
  rw [show (pyTakeSlice (-1) (List.insertionSort rankR
      [("t1", "d", (⟨1, 1, one_pos⟩ : Score)), ("t2", "d", (⟨1, 1, one_pos⟩ : Score))])).length
      = 1 from by rw [length_pyTakeSlice, if_neg (by norm_num), hlen]; rfl]

/-- Witness for the amended C1 on a concrete two-chunk store with `top_k = 1`. -/
theorem search_topk_length_witness :
    (pyTakeSlice 1 (List.insertionSort rankR
        [("t1", "d", (⟨1, 1, one_pos⟩ : Score)), ("t2", "d", (⟨1, 1, one_pos⟩ : Score))])).length
      = min (1 : Int).toNat
          ([("t1", "d", (⟨1, 1, one_pos⟩ : Score)),
            ("t2", "d", (⟨1, 1, one_pos⟩ : Score))] : List Entry).length :=
  (search_topk_length
    (add_chunk 1 "t2" [(1 : ℚ)] (add_chunk 1 "t1" [(1 : ℚ)]
      (add_document "d" "x" emptyDB).1))
    [(1 : ℚ)] 1
    [("t1", "d", ⟨1, 1, one_pos⟩), ("t2", "d", ⟨1, 1, one_pos⟩)]
    scanScores_two_chunks).2.2.1 (by norm_num)

/-! ## Ranking determinism and stable descending order (C8) -/

/-- Filtering to one equivalence class commutes with an ordered insert when all
class members are related (they compare equal). -/
theorem filter_orderedInsert (r : α → α → Prop) [DecidableRel r] (p : α → Bool)
    (hp : ∀ a b, p a = true → p b = true → r a b) (x : α) :
    ∀ l : List α, (List.orderedInsert r x l).filter p =
      if p x then x :: l.filter p else l.filter p
  | [] => by
    by_cases hx : p x <;> simp [List.orderedInsert, List.filter_cons, hx]
  | y :: ys => by
    by_cases hr : r x y
    · simp only [List.orderedInsert, if_pos hr]
      by_cases hx : p x <;> simp [List.filter_cons, hx]
    · simp only [List.orderedInsert, if_neg hr]
      by_cases hy : p y = true
      · have hx : ¬ p x = true := fun hx => hr (hp x y hx hy)
        rw [List.filter_cons, if_pos hy, filter_orderedInsert r p hp x ys]
        simp [List.filter_cons, hx, hy]
      · rw [List.filter_cons, if_neg hy, filter_orderedInsert r p hp x ys]
        by_cases hx : p x <;> simp [List.filter_cons, hx, hy]

/-- Stability of the modelled sort: the subsequence of any score class is
unchanged by sorting — ties keep their scan order. -/
theorem filter_insertionSort (r : α → α → Prop) [DecidableRel r] (p : α → Bool)
    (hp : ∀ a b, p a = true → p b = true → r a b) :
    ∀ l : List α, (List.insertionSort r l).filter p = l.filter p
  | [] => rfl
  | x :: xs => by
    simp only [List.insertionSort]
    rw [filter_orderedInsert r p hp x (List.insertionSort r xs),
      filter_insertionSort r p hp xs, List.filter_cons]

/-- CLAIM C8: the ranking is deterministic (the model is a pure function, as is
the source: Python's sort is deterministic), the output of the sort is ordered
descending by score (`rankR`), and for every score value the entries carrying
it appear in their original scan order (stable tie-breaking). -/
theorem ranking_deterministic_stable (db : DB) (q : List ℚ) (k : Int) (rs : List Entry)
    (h : scanScores q db = .ok rs) :
    search_similar q k db = search_similar q k db
    ∧ search_similar q k db = .ok (pyTakeSlice k (List.insertionSort rankR rs))
    ∧ List.Sorted rankR (List.insertionSort rankR rs)
    ∧ ∀ s : Score, (List.insertionSort rankR rs).filter (fun e => scoreEqv e.2.2 s)
        = rs.filter (fun e => scoreEqv e.2.2 s) := by
  refine ⟨rfl, ?_, List.sorted_insertionSort rankR rs, fun s => ?_⟩
  · unfold search_similar
    rw [h]
    rfl
  · apply filter_insertionSort
    intro a b ha hb
    simp only [scoreEqv, Bool.and_eq_true] at ha hb
    exact @IsTrans.trans Score scoreLeP _ b.2.2 s a.2.2 hb.1 ha.2

/-- Evaluation of the scan on a store with a genuine tie: `[1,0]` and `[2,0]`
both have cosine 1 against query `[1,0]`, with different representations. -/
theorem scanScores_tie :
    scanScores [(1 : ℚ), 0] (add_chunk 1 "t2" [(2 : ℚ), 0] (add_chunk 1 "t1" [(1 : ℚ), 0]
        (add_document "d" "x" emptyDB).1)) =
      .ok [("t1", "d", ⟨1, 1, one_pos⟩), ("t2", "d", ⟨2, 4, by norm_num⟩)] := by
  norm_num [scanScores, mapExcept_cons, mapExcept_nil, exc_bind_ok, exc_map_ok,
    iterateChunks, add_chunk, add_document, emptyDB, cosineScoreE, normSq, dotQ,
    Score.mk.injEq]

/-- Witness for C8: the tied score class keeps scan order on a concrete store. -/
theorem ranking_deterministic_stable_witness :
    (List.insertionSort rankR
        [("t1", "d", (⟨1, 1, one_pos⟩ : Score)), ("t2", "d", (⟨2, 4, by norm_num⟩ : Score))]).filter
      (fun e => scoreEqv e.2.2 ⟨1, 1, one_pos⟩)
      = ([("t1", "d", (⟨1, 1, one_pos⟩ : Score)),
          ("t2", "d", (⟨2, 4, by norm_num⟩ : Score))] : List Entry).filter
        (fun e => scoreEqv e.2.2 ⟨1, 1, one_pos⟩) :=
  (ranking_deterministic_stable
    (add_chunk 1 "t2" [(2 : ℚ), 0] (add_chunk 1 "t1" [(1 : ℚ), 0]
      (add_document "d" "x" emptyDB).1))
    [(1 : ℚ), 0] 5
    [("t1", "d", ⟨1, 1, one_pos⟩), ("t2", "d", ⟨2, 4, by norm_num⟩)]
    scanScores_tie).2.2.2 ⟨1, 1, one_pos⟩

/-! ## The `size` field of the document listing (C9) -/

set_option maxRecDepth 100000 in
/-- CLAIM C9, counterexample: for a 512-byte content the `size` field is the
formatted kilobyte string `"0.5 KB"`, not the integer byte count `512`;
moreover it is computed from sqlite's `length(content)` — a character count —
so a content of 256 two-byte characters (512 bytes) reports `"0.2 KB"`, while
the byte count 512 would format as `"0.5 KB"`. -/
theorem size_format_counterexample :
    (get_all_documents (add_document "a.txt" (String.mk (List.replicate 512 'a'))
        emptyDB).1).map DocEntry.size = ["0.5 KB"]
    ∧ (String.mk (List.replicate 512 'a')).utf8ByteSize = 512
    ∧ ("0.5 KB" : String) ≠ "512"
    ∧ (get_all_documents (add_document "b.txt" (String.mk (List.replicate 256 'é'))
        emptyDB).1).map DocEntry.size = ["0.2 KB"]
    ∧ (String.mk (List.replicate 256 'é')).utf8ByteSize = 512
    ∧ fmtKB 512 = "0.5 KB" := by
  refine ⟨rfl, ?_, by decide, rfl, ?_, by decide⟩ <;> decide

/-- CLAIM C9 (amended): every stored document appears in `get_all_documents`
with its id, name, chunk count and upload time, and a `size` field equal to the
string `f"{length/1024:.1f} KB"` where `length` is the character count of the
original content — a formatted kilobyte string, not the integer byte length. -/
theorem documents_size_field (db : DB) (d : Doc) (hd : d ∈ db.documents) :
    (⟨d.id, d.name, d.chunkCount, d.uploadedAt, fmtKB d.content.length⟩ : DocEntry)
      ∈ get_all_documents db := by
  have hmem : d ∈ List.insertionSort uploadedDesc db.documents :=
    ((List.perm_insertionSort uploadedDesc db.documents).mem_iff).mpr hd
  exact List.mem_map_of_mem _ hmem

/-- Witness for the amended C9 on a concrete one-document store. -/
theorem documents_size_field_witness :
    (⟨1, "n", 0, 0, fmtKB ("abc" : String).length⟩ : DocEntry)
      ∈ get_all_documents (add_document "n" "abc" emptyDB).1 :=
  documents_size_field (add_document "n" "abc" emptyDB).1 ⟨1, "n", "abc", 0, 0⟩
    (by decide)

/-! ## Storage stores the float32 cast of the input vector (C10) -/

/-- The float32 cast of any 64-bit pattern is a valid 32-bit word. -/
theorem f64ToF32_lt (w : Nat) : f64ToF32 w < 2 ^ 32 := by
  have hm : w % 2 ^ 52 < 2 ^ 52 := Nat.mod_lt _ (by norm_num)
  unfold f64ToF32
  dsimp only
  split_ifs <;> try omega
  all_goals first
  | (have hq0 : w % 2 ^ 52 / 2 ^ (29 + 896) = 0 :=
       Nat.div_eq_of_lt (lt_of_lt_of_le hm (by norm_num))
     omega)
  | (have h30 : (2 : Nat) ^ 30 ≤ 2 ^ (29 + (897 - w / 2 ^ 52 % 2 ^ 11)) :=
       Nat.pow_le_pow_right (by norm_num) (by omega)
     have hdl : (2 ^ 52 + w % 2 ^ 52) / 2 ^ (29 + (897 - w / 2 ^ 52 % 2 ^ 11))
         ≤ (2 ^ 52 + w % 2 ^ 52) / 2 ^ 30 :=
       Nat.div_le_div_left h30 (by norm_num)
     omega)

/-- CLAIM C10: `add_chunk` persists `embedding.astype(np.float32).tobytes()`,
so the vector decoded later during the similarity scan is exactly the float32
cast of the input — and the cast is lossy: the float64 bit pattern of `0.1`
(`0x3FB999999999999A`) casts to the float32 pattern whose exact value differs
from the exact value of the float64 input, so higher-precision vectors are
silently rounded on storage. -/
theorem stored_vector_is_f32cast (v : List Nat) :
    decodeF32 (encodeF32 (v.map f64ToF32)) = .ok (v.map f64ToF32)
    ∧ f32ValQ (f64ToF32 4591870180066957722) ≠ f64ValQ 4591870180066957722 := by
  constructor
  · apply decodeF32_encodeF32
    intro x hx
    obtain ⟨u, _, rfl⟩ := List.mem_map.mp hx
    exact f64ToF32_lt u
  · norm_num [f64ToF32, f64ValQ, f32ValQ]

/-! ## Chunker windows (C7) -/

/-- Every token emitted by the split helper is nonempty and whitespace-free,
provided the accumulated partial word is whitespace-free. -/
theorem wordsAux_tokens : ∀ (l cur : List Char),
    cur.all (fun c => !c.isWhitespace) = true →
    ∀ t ∈ wordsAux l cur, t ≠ [] ∧ t.all (fun c => !c.isWhitespace) = true
  | [], cur => by
    intro hcur t ht
    unfold wordsAux at ht
    by_cases hc : cur = []
    · simp [hc] at ht
    · rw [if_neg hc] at ht
      rcases List.mem_singleton.mp ht with rfl
      exact ⟨fun h => hc (by simpa using h), by simpa [List.all_reverse] using hcur⟩
  | c :: cs, cur => by
    intro hcur t ht
    unfold wordsAux at ht
    by_cases hw : c.isWhitespace
    · rw [if_pos hw] at ht
      by_cases hc : cur = []
      · rw [if_pos hc] at ht
        exact wordsAux_tokens cs [] rfl t ht
      · rw [if_neg hc] at ht
        rcases List.mem_cons.mp ht with h | h
        · subst h
          exact ⟨fun h => hc (by simpa using h), by simpa [List.all_reverse] using hcur⟩
        · exact wordsAux_tokens cs [] rfl t h
    · rw [if_neg hw] at ht
      have hcur2 : (c :: cur).all (fun x => !x.isWhitespace) = true := by
        simp [hcur, hw]
      exact wordsAux_tokens cs (c :: cur) hcur2 t ht

/-- Tokens of `text.split()` are nonempty and contain no whitespace. -/
theorem pyWords_tokens (text : String) :
    ∀ t ∈ pyWords text, t ≠ [] ∧ t.all (fun c => !c.isWhitespace) = true :=
  wordsAux_tokens text.toList [] rfl

/-- A chunk joined from at least one real token passes the `strip()` check. -/
theorem stripTruthy_joinSpace (t : List Char) (ts : List (List Char))
    (ht : t ≠ []) (hall : t.all (fun c => !c.isWhitespace) = true) :
    stripTruthy (joinSpace (t :: ts)) = true := by
  obtain ⟨c, cs, rfl⟩ := List.exists_cons_of_ne_nil ht
  have hc : (!c.isWhitespace) = true := List.all_eq_true.mp hall c (List.mem_cons_self c cs)
  cases ts with
  | nil => simp [joinSpace, stripTruthy, hc]
  | cons t2 ts2 => simp [joinSpace, stripTruthy, hc]

/-- The slice `words[i : i + w]` for `w ≥ 0` is `drop i` then `take w`. -/
theorem pySliceFrom_window (words : List (List Char)) (i : Nat) (w : Int) (hw : 0 ≤ w) :
    pySliceFrom words i ((i : Int) + w) = (words.drop i).take w.toNat := by
  simp only [pySliceFrom]
  rw [if_neg (by omega)]
  have h2 : ((i : Int) + w).toNat = i + w.toNat := by omega
  rw [h2, List.drop_take, List.take_eq_take, List.length_drop]
  omega

/-- Indices produced by `range(0, n, s)` stay below `n`. -/
theorem range_mul_lt (n s j : Nat) (hs : 0 < s) (hj : j < (n + s - 1) / s) : j * s < n := by
  have h2 : (j + 1) * s ≤ ((n + s - 1) / s) * s := Nat.mul_le_mul_right s hj
  have h3 : ((n + s - 1) / s) * s ≤ n + s - 1 := Nat.div_mul_le_self _ _
  have h4 : (j + 1) * s = j * s + s := by ring
  omega

/-- CLAIM C7: with valid parameters (`0 ≤ overlap < window`) the chunker splits
on whitespace and emits, for each start index `j·(window-overlap)` below the
token count, the window of `window` consecutive tokens joined by single spaces
(the `strip()` filter never drops anything); in particular a 600-token text
with `window = 500`, `overlap = 50` yields exactly the two chunks covering
token ranges `[0:500)` and `[450:600)`. -/
theorem chunker_windows (text : String) (w o : Int) (ho : 0 ≤ o) (how : o < w) :
    chunk_text text w o =
      .ok ((List.range (((pyWords text).length + (w - o).toNat - 1) / (w - o).toNat)).map
        (fun j => joinSpace (((pyWords text).drop (j * (w - o).toNat)).take w.toNat)))
    ∧ ((pyWords text).length = 600 → w = 500 → o = 50 →
        chunk_text text w o = .ok [joinSpace ((pyWords text).take 500),
          joinSpace (((pyWords text).drop 450).take 150)]) := by
  have hpart1 : chunk_text text w o =
      .ok ((List.range (((pyWords text).length + (w - o).toNat - 1) / (w - o).toNat)).map
        (fun j => joinSpace (((pyWords text).drop (j * (w - o).toNat)).take w.toNat))) := by
    simp only [chunk_text]
    rw [if_neg (by omega), if_neg (by omega)]
    congr 1
    rw [List.map_map]
    rw [List.map_congr_left (fun j hj => by
      show joinSpace (pySliceFrom (pyWords text) (j * (w - o).toNat)
          ((↑(j * (w - o).toNat) : Int) + w)) = _
      rw [pySliceFrom_window _ _ _ (by omega)])]
    apply List.filter_eq_self.mpr
    intro ch hch
    obtain ⟨j, hj, rfl⟩ := List.mem_map.mp hch
    have hlt : j * (w - o).toNat < (pyWords text).length :=
      range_mul_lt _ _ _ (by omega) (List.mem_range.mp hj)
    have hne : ((pyWords text).drop (j * (w - o).toNat)).take w.toNat ≠ [] := by
      apply List.ne_nil_of_length_pos
      rw [List.length_take, List.length_drop]
      omega
    obtain ⟨t, ts, heq⟩ := List.exists_cons_of_ne_nil hne
    rw [heq]
    have htmem : t ∈ pyWords text := by
      have h1 : t ∈ ((pyWords text).drop (j * (w - o).toNat)).take w.toNat :=
        heq ▸ List.mem_cons_self t ts
      exact List.drop_subset _ _ (List.take_subset _ _ h1)
    obtain ⟨htne, htall⟩ := pyWords_tokens text t htmem
    exact stripTruthy_joinSpace t ts htne htall
  refine ⟨hpart1, fun h600 hw500 ho50 => ?_⟩
  subst hw500
  subst ho50
  rw [hpart1, h600]
  rw [show ((500 : Int) - 50).toNat = 450 from rfl, show ((500 : Int)).toNat = 500 from rfl]
  rw [show (600 + 450 - 1) / 450 = 2 from by norm_num]
  rw [show List.range 2 = [0, 1] from rfl]
  have e2 : ((pyWords text).drop 450).take 500 = ((pyWords text).drop 450).take 150 := by
    rw [List.take_eq_take, List.length_drop, h600]
    omega
  simp [e2]

/-- Witness for C7 at a concrete text and parameters (`"a b c"`, window 2,
overlap 1: chunks `"a b"`, `"b c"`, `"c"`). -/
theorem chunker_windows_witness :
    chunk_text "a b c" 2 1 =
      .ok ((List.range (((pyWords "a b c").length + ((2 : Int) - 1).toNat - 1) /
          ((2 : Int) - 1).toNat)).map
        (fun j => joinSpace (((pyWords "a b c").drop (j * ((2 : Int) - 1).toNat)).take
          (2 : Int).toNat))) :=
  (chunker_windows "a b c" 2 1 (by norm_num) (by norm_num)).1

/-! ## The score comparator agrees with the real values it represents -/
/-- The comparator `scoreLe` decides exactly the order of the represented real
values `num / √denSq`: the model's sort key agrees with the similarity floats'
ideal values. -/
theorem scoreLe_iff_real (a b : Score) :
    scoreLe a b = true ↔
      (a.num : ℝ) / Real.sqrt (a.denSq : ℝ) ≤ (b.num : ℝ) / Real.sqrt (b.denSq : ℝ) := by
  have hpa : (0 : ℝ) < (a.denSq : ℝ) := by exact_mod_cast a.pos
  have hpb : (0 : ℝ) < (b.denSq : ℝ) := by exact_mod_cast b.pos
  have hsa : 0 < Real.sqrt (a.denSq : ℝ) := Real.sqrt_pos.mpr hpa
  have hsb : 0 < Real.sqrt (b.denSq : ℝ) := Real.sqrt_pos.mpr hpb
  have hsa2 : Real.sqrt (a.denSq : ℝ) * Real.sqrt (a.denSq : ℝ) = (a.denSq : ℝ) :=
    Real.mul_self_sqrt hpa.le
  have hsb2 : Real.sqrt (b.denSq : ℝ) * Real.sqrt (b.denSq : ℝ) = (b.denSq : ℝ) :=
    Real.mul_self_sqrt hpb.le
  rw [div_le_div_iff₀ hsa hsb]
  unfold scoreLe
  by_cases ha : a.num < 0 <;> by_cases hb : b.num < 0 <;>
    simp only [ha, hb, ite_true, ite_false, if_true, if_false, decide_eq_true_eq,
      true_iff, false_iff]
  · -- both negative: compare the squares of the negated sides
    have hA : ((a.num : ℝ)) < 0 := by exact_mod_cast ha
    have hB : ((b.num : ℝ)) < 0 := by exact_mod_cast hb
    constructor
    · intro h
      have hR : (b.num : ℝ) * (b.num : ℝ) * (a.denSq : ℝ)
          ≤ (a.num : ℝ) * (a.num : ℝ) * (b.denSq : ℝ) := by exact_mod_cast h
      by_contra hlt
      push_neg at hlt
      have h1 : (-(a.num : ℝ) * Real.sqrt (b.denSq : ℝ)) * (-(a.num : ℝ) * Real.sqrt (b.denSq : ℝ))
          < (-(b.num : ℝ) * Real.sqrt (a.denSq : ℝ)) * (-(b.num : ℝ) * Real.sqrt (a.denSq : ℝ)) :=
        mul_self_lt_mul_self (by nlinarith) (by nlinarith)
      have e1 : (-(a.num : ℝ) * Real.sqrt (b.denSq : ℝ)) * (-(a.num : ℝ) * Real.sqrt (b.denSq : ℝ))
          = (a.num : ℝ) * (a.num : ℝ) * (Real.sqrt (b.denSq : ℝ) * Real.sqrt (b.denSq : ℝ)) := by
        ring
      have e2 : (-(b.num : ℝ) * Real.sqrt (a.denSq : ℝ)) * (-(b.num : ℝ) * Real.sqrt (a.denSq : ℝ))
          = (b.num : ℝ) * (b.num : ℝ) * (Real.sqrt (a.denSq : ℝ) * Real.sqrt (a.denSq : ℝ)) := by
        ring
      rw [e1, e2, hsa2, hsb2] at h1
      linarith
    · intro h
      have h2 : -(b.num : ℝ) * Real.sqrt (a.denSq : ℝ) ≤ -(a.num : ℝ) * Real.sqrt (b.denSq : ℝ) := by
        nlinarith
      have h1 : (-(b.num : ℝ) * Real.sqrt (a.denSq : ℝ)) * (-(b.num : ℝ) * Real.sqrt (a.denSq : ℝ))
          ≤ (-(a.num : ℝ) * Real.sqrt (b.denSq : ℝ)) * (-(a.num : ℝ) * Real.sqrt (b.denSq : ℝ)) :=
        mul_self_le_mul_self (by nlinarith) h2
      have e1 : (-(a.num : ℝ) * Real.sqrt (b.denSq : ℝ)) * (-(a.num : ℝ) * Real.sqrt (b.denSq : ℝ))
          = (a.num : ℝ) * (a.num : ℝ) * (Real.sqrt (b.denSq : ℝ) * Real.sqrt (b.denSq : ℝ)) := by
        ring
      have e2 : (-(b.num : ℝ) * Real.sqrt (a.denSq : ℝ)) * (-(b.num : ℝ) * Real.sqrt (a.denSq : ℝ))
          = (b.num : ℝ) * (b.num : ℝ) * (Real.sqrt (a.denSq : ℝ) * Real.sqrt (a.denSq : ℝ)) := by
        ring
      rw [e1, e2, hsa2, hsb2] at h1
      exact_mod_cast h1
  · -- a negative, b nonnegative: always below
    have hA : ((a.num : ℝ)) < 0 := by exact_mod_cast ha
    have hB : (0 : ℝ) ≤ ((b.num : ℝ)) := by exact_mod_cast not_lt.mp hb
    nlinarith
  · -- a nonnegative, b negative: never below
    have hA : (0 : ℝ) ≤ ((a.num : ℝ)) := by exact_mod_cast not_lt.mp ha
    have hB : ((b.num : ℝ)) < 0 := by exact_mod_cast hb
    exact iff_of_false (by simp) (not_le.mpr (by nlinarith))
  · -- both nonnegative: compare the squares
    have hA : (0 : ℝ) ≤ ((a.num : ℝ)) := by exact_mod_cast not_lt.mp ha
    have hB : (0 : ℝ) ≤ ((b.num : ℝ)) := by exact_mod_cast not_lt.mp hb
    constructor
    · intro h
      have hR : (a.num : ℝ) * (a.num : ℝ) * (b.denSq : ℝ)
          ≤ (b.num : ℝ) * (b.num : ℝ) * (a.denSq : ℝ) := by exact_mod_cast h
      by_contra hlt
      push_neg at hlt
      have h1 : ((b.num : ℝ) * Real.sqrt (a.denSq : ℝ)) * ((b.num : ℝ) * Real.sqrt (a.denSq : ℝ))
          < ((a.num : ℝ) * Real.sqrt (b.denSq : ℝ)) * ((a.num : ℝ) * Real.sqrt (b.denSq : ℝ)) :=
        mul_self_lt_mul_self (mul_nonneg hB hsa.le) hlt
      have e1 : ((a.num : ℝ) * Real.sqrt (b.denSq : ℝ)) * ((a.num : ℝ) * Real.sqrt (b.denSq : ℝ))
          = (a.num : ℝ) * (a.num : ℝ) * (Real.sqrt (b.denSq : ℝ) * Real.sqrt (b.denSq : ℝ)) := by
        ring
      have e2 : ((b.num : ℝ) * Real.sqrt (a.denSq : ℝ)) * ((b.num : ℝ) * Real.sqrt (a.denSq : ℝ))
          = (b.num : ℝ) * (b.num : ℝ) * (Real.sqrt (a.denSq : ℝ) * Real.sqrt (a.denSq : ℝ)) := by
        ring
      rw [e1, e2, hsa2, hsb2] at h1
      linarith
    · intro h
      have h1 : ((a.num : ℝ) * Real.sqrt (b.denSq : ℝ)) * ((a.num : ℝ) * Real.sqrt (b.denSq : ℝ))
          ≤ ((b.num : ℝ) * Real.sqrt (a.denSq : ℝ)) * ((b.num : ℝ) * Real.sqrt (a.denSq : ℝ)) :=
        mul_self_le_mul_self (mul_nonneg hA hsb.le) h
      have e1 : ((a.num : ℝ) * Real.sqrt (b.denSq : ℝ)) * ((a.num : ℝ) * Real.sqrt (b.denSq : ℝ))
          = (a.num : ℝ) * (a.num : ℝ) * (Real.sqrt (b.denSq : ℝ) * Real.sqrt (b.denSq : ℝ)) := by
        ring
      have e2 : ((b.num : ℝ) * Real.sqrt (a.denSq : ℝ)) * ((b.num : ℝ) * Real.sqrt (a.denSq : ℝ))
          = (b.num : ℝ) * (b.num : ℝ) * (Real.sqrt (a.denSq : ℝ) * Real.sqrt (a.denSq : ℝ)) := by
        ring
      rw [e1, e2, hsa2, hsb2] at h1
      exact_mod_cast h1
